import Mathlib

/-!
Shallow embedding of the LLM-App-Builder pipeline (src/main.py).

External effects (GitHub content API, the generative service, the
evaluation callback, base64/UTF-8 decoding of attachments) are modelled
by an explicit environment `Env` of oracles; each Python function is
translated into a Lean function over that environment, mirroring the
source's control flow.  Python dicts that are iterated in insertion
order are modelled as association lists.
-/

namespace AppBuilder

/-- An attachment of the inbound request: a name and a data URI. -/
structure Attachment where
  name : String
  url : String
deriving DecidableEq

/-- The validated inbound task request (pydantic model `Request`). -/
structure Request where
  email : String
  secret : String
  task : String
  round : Nat
  nonce : String
  brief : String
  checks : List String
  evaluation_url : String
  attachments : List Attachment
deriving DecidableEq

/-- A file artifact handed to the synchronizer: dict with `name` and
(base64-encoded) `content` keys, both strings in the adapter's output. -/
structure FileArtifact where
  name : String
  content : String
deriving DecidableEq

/-- `GetRepoName`: the project key is `task_nonce`. -/
def GetRepoName (task : String) (nonce : String) : String :=
  task ++ "_" ++ nonce

/-- `GetGithubPagesURL` for owner `24f2004631`. -/
def GetGithubPagesURL (repoName : String) : String :=
  "https://" ++ "24f2004631" ++ ".github.io/" ++ repoName ++ "/"

/-! ### Base64 encoding (`base64.b64encode(...).decode()`) -/

/-- The standard base64 alphabet. -/
def base64Alphabet : List Char :=
  "ABCDEFGHIJKLMNOPQRSTUVWXYZabcdefghijklmnopqrstuvwxyz0123456789+/".toList

/-- Standard base64 encoding of a byte list, with `=` padding. -/
def b64EncodeList : List UInt8 → List Char
  | a :: b :: c :: rest =>
    let n := a.toNat * 65536 + b.toNat * 256 + c.toNat
    base64Alphabet.getD (n / 262144 % 64) 'A' ::
    base64Alphabet.getD (n / 4096 % 64) 'A' ::
    base64Alphabet.getD (n / 64 % 64) 'A' ::
    base64Alphabet.getD (n % 64) 'A' :: b64EncodeList rest
  | [a, b] =>
    let n := a.toNat * 65536 + b.toNat * 256
    [base64Alphabet.getD (n / 262144 % 64) 'A',
     base64Alphabet.getD (n / 4096 % 64) 'A',
     base64Alphabet.getD (n / 64 % 64) 'A', '=']
  | [a] =>
    let n := a.toNat * 65536
    [base64Alphabet.getD (n / 262144 % 64) 'A',
     base64Alphabet.getD (n / 4096 % 64) 'A', '=', '=']
  | [] => []

/-- The UTF-8 bytes of a string (`s.encode('utf-8')`). -/
def utf8Bytes (s : String) : List UInt8 :=
  s.data.flatMap String.utf8EncodeChar

/-- `base64.b64encode(s.encode('utf-8')).decode('utf-8')`. -/
def b64encode (s : String) : String :=
  String.mk (b64EncodeList (utf8Bytes s))

/-! ### Platform model: stored files of the hosted project -/

/-- The platform's root file table: filename to current version tag (sha). -/
def RepoFiles := List (String × String)

/-- `GetFileSHA`: the version tag of a stored file, `none` when absent
(the content GET answers 404). -/
def GetFileSHA (repo : RepoFiles) (fileName : String) : Option String :=
  (List.find? (fun p => p.1 == fileName) repo).map (fun p => p.2)

/-- The platform records a new version tag for a file after an accepted write. -/
def storeFile (repo : RepoFiles) (fileName : String) (sha : String) : RepoFiles :=
  (fileName, sha) :: List.filter (fun p => ¬ (p.1 == fileName)) repo

/-- Python truthiness of the `Optional[str]` version tag
(`"Update" if fileSHA else "Create"`). -/
def shaTruthy : Option String → Bool
  | none => false
  | some s => s ≠ ""

/-! ### Environment of external oracles -/

/-- One entry of the root-contents listing (`GET .../contents/`). -/
structure RootItem where
  type : String
  name : String
  path : String
deriving DecidableEq

/-- Response of one `PUT .../contents/<file>`: HTTP status, the
`commit.sha` field of the response body when present, and the new
version tag the platform stores for the file on success. -/
structure PutResponse where
  status : Nat
  commitSHA : Option String
  contentSHA : String
deriving DecidableEq

/-- The create-or-update request issued by the synchronizer for one file:
the payload's message and content, and the `sha` key when carried. -/
structure PutRequest where
  fileName : String
  message : String
  content : String
  sha : Option String
deriving DecidableEq

/-- One element of a parsed generation array (`file.get("name")`,
`file.get("content")`), modelled with string-or-absent fields. -/
structure GenItem where
  name : Option String
  content : Option String
deriving DecidableEq

/-- The generative service's answer, as seen after `json.loads`:
the call or the parse failed, or it parsed to a non-array value, or to
an array of objects with optional string `name`/`content` fields. -/
inductive GenAnswer where
  | failure
  | nonArray
  | array (items : List GenItem)
deriving DecidableEq

/-- The environment of external collaborators for one background run:
HTTP statuses, response bodies and stored platform state. `putResult n`
is the platform's answer to the n-th PUT issued by the synchronizer;
`fileContent p` is `GetFileContent`'s result for path `p` (`some s` for
a 200 answer with base64 encoding decoding to `s`, else `none`);
`evalResp n` is the n-th evaluation-callback POST outcome (`none` for a
transport error, `some s` for HTTP status `s`). -/
structure Env where
  createRepoStatus : Nat
  rootStatus : Nat
  rootListing : List RootItem
  fileContent : String → Option String
  repo0 : RepoFiles
  putResult : Nat → PutResponse
  llmAnswer : GenAnswer
  pagesStatus : Nat
  evalResp : Nat → Option Nat

/-- `CreateGithubRepo` succeeds on status 201 or 422 and raises otherwise. -/
def CreateGithubRepoOk (env : Env) : Bool :=
  env.createRepoStatus == 201 || env.createRepoStatus == 422

/-- `EnablePages` succeeds on status 201 or 409 and raises otherwise. -/
def EnablePagesOk (env : Env) : Bool :=
  env.pagesStatus == 201 || env.pagesStatus == 409

/-! ### Python string primitives -/

/-- `str.endswith(suffix)`: the suffix's characters end the string. -/
def pyEndsWith (s suffix : String) : Bool :=
  List.isSuffixOf suffix.data s.data

/-- Left-to-right non-overlapping split on a separator, with enough fuel
to consume the whole input (each step consumes at least one character). -/
def splitFuel (sep : List Char) : Nat → List Char → List Char → List (List Char)
  | 0, s, acc => [acc.reverse ++ s]
  | fuel + 1, s, acc =>
    match s with
    | [] => [acc.reverse]
    | c :: rest =>
      if List.isPrefixOf sep (c :: rest) then
        acc.reverse :: splitFuel sep fuel (List.drop sep.length (c :: rest)) []
      else splitFuel sep fuel rest (c :: acc)

/-- `str.split(sep)` for a non-empty separator. -/
def pySplit (s : String) (sep : String) : List String :=
  (splitFuel sep.data (s.data.length + 1) s.data []).map (fun l => String.mk l)

/-! ### Round Context Builder (`GetExistingFiles`) -/

/-- The bare suffix filter of `GetExistingFiles`:
`any(item["name"].endswith(ext) for ext in ["html", "css", "js", "md", "json"])`. -/
def textSuffixMatch (name : String) : Bool :=
  List.any ["html", "css", "js", "md", "json"] (fun ext => pyEndsWith name ext)

/-- The per-entry step of `GetExistingFiles`: a `file` entry whose name
matches the suffix filter has its content fetched and is kept when that
content is truthy (present and non-empty). -/
def existingFileEntry (env : Env) (item : RootItem) : Option (String × String) :=
  if item.type == "file" && textSuffixMatch item.name then
    match env.fileContent item.path with
    | some c => if c ≠ "" then some (item.path, c) else none
    | none => none
  else none

/-- `GetExistingFiles`: list root entries and collect the kept ones. -/
def GetExistingFiles (env : Env) : List (String × String) :=
  if env.rootStatus = 200 then
    env.rootListing.filterMap (existingFileEntry env)
  else []

/-! ### Repository Synchronizer (`PushToRepo`) -/

/-- The synchronizer's loop state: the platform file table as it evolves,
the trace of issued PUTs with their responses, and `latestSHA`. -/
structure PushState where
  repo : RepoFiles
  trace : List (PutRequest × PutResponse)
  latestSHA : String

/-- An accepted write: `response.status_code in (200, 201)`. -/
def isAcceptedResp (r : PutResponse) : Bool :=
  r.status == 200 || r.status == 201

/-- `if not fileName or not fileContent`: a falsy name or content. -/
def falsyFile (f : FileArtifact) : Bool :=
  f.name == "" || f.content == ""

/-- The create-or-update request `PushToRepo` issues for one file given
the current platform state: the payload carries the current version tag
exactly when the look-up found a truthy one. -/
def putRequestFor (st : PushState) (round : Nat) (file : FileArtifact) :
    PutRequest :=
  { fileName := file.name
    message := "Round " ++ toString round ++ "-" ++
      (if shaTruthy (GetFileSHA st.repo file.name) then "Update" else "Create") ++
      " " ++ file.name
    content := file.content
    sha := if shaTruthy (GetFileSHA st.repo file.name) then
        GetFileSHA st.repo file.name
      else none }

/-- One iteration of `PushToRepo`'s loop for one file dict: skip falsy
name or content; look up the current version tag; issue a create (no
`sha`) or update (with `sha`) request; on 200/201 record the new version
tag and take the response's `commit.sha` when present. -/
def pushFile (env : Env) (round : Nat) (st : PushState) (file : FileArtifact) :
    PushState :=
  if falsyFile file then st
  else if isAcceptedResp (env.putResult st.trace.length) then
    { repo := storeFile st.repo file.name (env.putResult st.trace.length).contentSHA
      trace := st.trace ++
        [(putRequestFor st round file, env.putResult st.trace.length)]
      latestSHA := (env.putResult st.trace.length).commitSHA.getD st.latestSHA }
  else
    { repo := st.repo
      trace := st.trace ++
        [(putRequestFor st round file, env.putResult st.trace.length)]
      latestSHA := st.latestSHA }

/-- The loop of `PushToRepo` folded over the ordered batch, from the
initial state (`latestSHA = ""`, no requests issued yet). -/
def pushRun (env : Env) (round : Nat) (files : List FileArtifact) : PushState :=
  files.foldl (pushFile env round) { repo := env.repo0, trace := [], latestSHA := "" }

/-- `PushToRepo`: run the loop, then raise when `latestSHA` is still
falsy, else return it.  The issued-request trace is returned alongside
the result. -/
def PushToRepo (env : Env) (round : Nat) (files : List FileArtifact) :
    List (PutRequest × PutResponse) × Except String String :=
  ((pushRun env round files).trace,
   if (pushRun env round files).latestSHA = "" then
     Except.error "No files were pushed successfully."
   else Except.ok (pushRun env round files).latestSHA)

/-! ### Generation Adapter (`LLMCode`) -/

/-- The single synthetic fallback artifact returned when the generation
call or `json.loads` raises. -/
def fallbackArtifact : FileArtifact :=
  { name := "error.html"
    content :=
      b64encode "<html><body><h1>Gemini code generation failed</h1></body></html>" }

/-- The default license artifact synthesized for round 1. -/
def defaultLicense : FileArtifact :=
  { name := "LICENSE", content := b64encode "MIT License..." }

/-- The default readme artifact synthesized for round 1. -/
def defaultReadme (req : Request) : FileArtifact :=
  { name := "README.md"
    content := b64encode ("# Task " ++ req.task ++ "\nBrief: " ++ req.brief) }

/-- The array-processing loop of `LLMCode`: keep entries with truthy
`name` and `content`, base64-encoding the content. -/
def encodeFiles (items : List GenItem) : List FileArtifact :=
  items.filterMap (fun it =>
    match it.name, it.content with
    | some n, some c =>
      if n ≠ "" ∧ c ≠ "" then some { name := n, content := b64encode c }
      else none
    | _, _ => none)

/-- The round-1 block of `LLMCode`: only when the encoded list contains
neither `LICENSE` nor `README.md` does it append the missing defaults. -/
def roundOneDefaults (req : Request) (encodedFiles : List FileArtifact) :
    List FileArtifact :=
  if req.round = 1 &&
      !(encodedFiles.any (fun f => f.name == "LICENSE" || f.name == "README.md")) then
    let withLicense :=
      if encodedFiles.any (fun f => f.name == "LICENSE") then encodedFiles
      else encodedFiles ++ [defaultLicense]
    if withLicense.any (fun f => f.name == "README.md") then withLicense
    else withLicense ++ [defaultReadme req]
  else encodedFiles

/-- `LLMCode`'s output handling: a raised call or parse gives the single
fallback artifact (returned before the round-1 block); a parsed answer
keeps the encoded entries of an array (none for a non-array value) and
then applies the round-1 block.  The existing-files argument feeds only
the prompt, not the output. -/
def LLMCode (req : Request) (existingFiles : List (String × String))
    (answer : GenAnswer) : List FileArtifact :=
  match answer with
  | GenAnswer.failure => [fallbackArtifact]
  | GenAnswer.nonArray => roundOneDefaults req []
  | GenAnswer.array items => roundOneDefaults req (encodeFiles items)

/-! ### Attachment decoding for the prompt context -/

/-- `attachment.url.split(";base64,")` followed by base64 and UTF-8
decoding; the unpacking raises unless the split has exactly two parts,
and `b64utf8` models the decoding pipeline's outcome. -/
def decodeAttachment (b64utf8 : String → Option String) (a : Attachment) :
    Option String :=
  match pySplit a.url ";base64," with
  | [_, encodedData] => b64utf8 encodedData
  | _ => none

/-- The per-attachment entries of the prompt context: decodable
attachments contribute their entry, raised decodes are skipped. -/
def attachmentSection (b64utf8 : String → Option String)
    (atts : List Attachment) : List String :=
  atts.filterMap (fun a =>
    (decodeAttachment b64utf8 a).map (fun d =>
      "\nATTACHMENT: " ++ a.name ++ " (" ++ (pySplit a.url ";").headD "" ++
      ")\nContent :\n" ++ d ++ "\n"))

/-- The `contextSection` list built by `LLMCode` before the call:
existing files, then the decoded attachments under their header. -/
def contextSection (b64utf8 : String → Option String) (req : Request)
    (existingFiles : List (String × String)) : List String :=
  (if existingFiles ≠ [] then
    "--- EXISTING REPO FILES (DO NOT DELETE UNLESS REPLACING) ---" ::
      existingFiles.map (fun p =>
        "\nFile: " ++ p.1 ++ "\n```\n" ++ p.2 ++ "\n```\n")
  else []) ++
  (if req.attachments ≠ [] then
    "\n\n--- ATTACHMENTS (DATA URIs) ---" ::
      attachmentSection b64utf8 req.attachments
  else [])

/-! ### Evaluation Notifier (`PostToEvaluationAPI`) -/

/-- The retry loop of `PostToEvaluationAPI`, returning the number of POST
attempts made and the list of delays slept: stop on a 200 answer; after
any other outcome sleep `delay` and double it, except after the last
allowed attempt. -/
def evalLoop (resp : Nat → Option Nat) : Nat → Nat → Nat → Nat × List Nat
  | _, 0, _ => (0, [])
  | attempt, remaining + 1, delay =>
    if resp attempt = some 200 then (1, [])
    else if remaining = 0 then (1, [])
    else
      let r := evalLoop resp (attempt + 1) remaining (delay * 2)
      (r.1 + 1, delay :: r.2)

/-- `maxRetries = 5`. -/
def maxRetries : Nat := 5

/-- `PostToEvaluationAPI`'s attempt/delay behaviour: up to `maxRetries`
POSTs starting from delay 1. -/
def PostToEvaluationAPI (resp : Nat → Option Nat) : Nat × List Nat :=
  evalLoop resp 0 maxRetries 1

/-! ### Task Orchestrator (`ProcessTaskInBackground`) -/

/-- The externally visible calls of one background run. -/
inductive Event where
  | createRepo (repoName : String)
  | listRoot (repoName : String)
  | llmCall (existingFiles : List (String × String))
  | put (req : PutRequest) (resp : PutResponse)
  | enablePages (repoName : String)
  | evalPost (attempt : Nat)
deriving DecidableEq

/-- The revision context handed to generation: gathered from the
project only when `round == 2`, empty otherwise. -/
def roundExistingFiles (env : Env) (req : Request) : List (String × String) :=
  if req.round = 2 then GetExistingFiles env else []

/-- The calls made before pushing: project creation for round 1, the
root listing for round 2, then the generation call with its context. -/
def preEvents (env : Env) (req : Request) : List Event :=
  (if req.round = 1 then
    [Event.createRepo (GetRepoName req.task req.nonce)] else []) ++
  (if req.round = 2 then
    [Event.listRoot (GetRepoName req.task req.nonce)] else []) ++
  [Event.llmCall (roundExistingFiles env req)]

/-- The file set generation hands the synchronizer. -/
def filesToCommit (env : Env) (req : Request) : List FileArtifact :=
  LLMCode req (roundExistingFiles env req) env.llmAnswer

/-- The synchronizer's calls as events. -/
def pushEvents (env : Env) (req : Request) : List Event :=
  (PushToRepo env req.round (filesToCommit env req)).1.map
    (fun p => Event.put p.1 p.2)

/-- `ProcessTaskInBackground` as the trace of external calls it performs:
round 1 creates the project (a raised creation aborts the run); round 2
gathers existing files; generation output is pushed unless empty; a
raised push (zero accepted writes) aborts before the pages call; a
raised pages call aborts before notification; otherwise the notifier's
attempts close the run.  Every raise is caught by the outer handler. -/
def ProcessTaskInBackground (env : Env) (req : Request) : List Event :=
  if req.round = 1 && !CreateGithubRepoOk env then
    [Event.createRepo (GetRepoName req.task req.nonce)]
  else if filesToCommit env req = [] then preEvents env req
  else
    match (PushToRepo env req.round (filesToCommit env req)).2 with
    | Except.error _ => preEvents env req ++ pushEvents env req
    | Except.ok _ =>
      if !EnablePagesOk env then
        preEvents env req ++ pushEvents env req ++
          [Event.enablePages (GetRepoName req.task req.nonce)]
      else
        preEvents env req ++ pushEvents env req ++
          [Event.enablePages (GetRepoName req.task req.nonce)] ++
          (List.range (PostToEvaluationAPI env.evalResp).1).map Event.evalPost

/-- An `Event.put` whose response accepted the write. -/
def acceptedPutEvent : Event → Bool
  | Event.put _ resp => isAcceptedResp resp
  | _ => false

/-- The last accepted write of an issued-request trace. -/
def lastAccepted (tr : List (PutRequest × PutResponse)) :
    Option (PutRequest × PutResponse) :=
  (tr.filter (fun p => isAcceptedResp p.2)).getLast?

/-- The `latestSHA` a trace determines: the last accepted write's
`commit.sha`, or the initial falsy value. -/
def latestSpec (tr : List (PutRequest × PutResponse)) : String :=
  match lastAccepted tr with
  | some p => p.2.commitSHA.getD ""
  | none => ""

/-- A well-behaved hosting platform: every accepted write's response
body carries a non-empty `commit.sha`. -/
def WellBehavedPuts (env : Env) : Prop :=
  ∀ n, isAcceptedResp (env.putResult n) = true →
    ∃ c, (env.putResult n).commitSHA = some c ∧ c ≠ ""

/-- Every accepted response recorded in a trace carries a non-empty
`commit.sha`. -/
def TraceGood (tr : List (PutRequest × PutResponse)) : Prop :=
  ∀ p ∈ tr, isAcceptedResp p.2 = true →
    ∃ c, p.2.commitSHA = some c ∧ c ≠ ""

/-! ### Concrete instances used to exercise the model -/

/-- A concrete request at a chosen round. -/
def reqRound (r : Nat) : Request :=
  { email := "user@example.com"
    secret := "s3cret"
    task := "markdown-to-html"
    round := r
    nonce := "ab12"
    brief := "build a landing page"
    checks := ["has title"]
    evaluation_url := "https://example.com/notify"
    attachments := [] }

/-- A callback that answers 500, then 200. -/
def respW : Nat → Option Nat := fun n => if n = 1 then some 200 else some 500

/-- A decoding oracle that accepts every payload unchanged. -/
def oracleId : String → Option String := fun s => some s

/-- An attachment whose data URI has no base64 marker: its unpacking raises. -/
def attBad : Attachment := { name := "bad", url := "data:text/plain" }

/-- A well-formed attachment. -/
def attGood1 : Attachment := { name := "g1", url := "data:text/plain;base64,QQ==" }

/-- Another well-formed attachment. -/
def attGood2 : Attachment := { name := "g2", url := "data:text/plain;base64,Qg==" }

/-- A platform that rejects every write. -/
def rejectAllPut : Nat → PutResponse := fun _ => ⟨422, none, ""⟩

/-- A platform that accepts every write. -/
def acceptAllPut : Nat → PutResponse :=
  fun _ => ⟨201, some "commitA", "blobA"⟩

/-- An environment whose generation call raises and platform rejects writes. -/
def envReject : Env :=
  ⟨201, 200, [], fun _ => none, [], rejectAllPut, GenAnswer.failure, 201,
    fun _ => some 200⟩

/-- An environment whose generation call raises and platform accepts writes. -/
def envAccept : Env :=
  ⟨201, 200, [], fun _ => none, [], acceptAllPut, GenAnswer.failure, 201,
    fun _ => some 200⟩

/-- An environment whose generation answer parses to a non-array value. -/
def envNonArray : Env :=
  ⟨201, 200, [], fun _ => none, [], rejectAllPut, GenAnswer.nonArray, 201,
    fun _ => some 200⟩

/-- An environment whose project root holds one extensionless file `nojs`. -/
def envListing : Env :=
  ⟨201, 200, [⟨"file", "nojs", "nojs"⟩],
    (fun p => if p = "nojs" then some "console" else none), [], rejectAllPut,
    GenAnswer.failure, 201, fun _ => some 200⟩

/-- A concrete file artifact. -/
def fileA : FileArtifact := ⟨"index.html", "PGgxPg=="⟩

/-- A second artifact with the same filename and different content. -/
def fileB : FileArtifact := ⟨"index.html", "PGgyPg=="⟩

/-! ## Helper lemmas -/

/-- A file dict with a falsy name or content is skipped without effect. -/
theorem pushFile_skip (env : Env) (round : Nat) (st : PushState)
    (f : FileArtifact) (h : f.name = "" ∨ f.content = "") :
    pushFile env round st f = st := by
  unfold pushFile
  rcases h with h | h <;> simp [falsyFile, h]

/-- A batch of only skipped files leaves the loop state untouched. -/
theorem foldl_skip_all (env : Env) (round : Nat) :
    ∀ (files : List FileArtifact) (st : PushState),
      (∀ f ∈ files, f.name = "" ∨ f.content = "") →
      files.foldl (pushFile env round) st = st := by
  intro files
  induction files with
  | nil => intro st _; rfl
  | cons f fs ih =>
    intro st h
    simp only [List.foldl_cons]
    rw [pushFile_skip env round st f (h f (by simp))]
    exact ih st (fun g hg => h g (by simp [hg]))

/-- The retry loop makes at most as many attempts as it has remaining. -/
theorem evalLoop_le (resp : Nat → Option Nat) :
    ∀ (rem attempt delay : Nat), (evalLoop resp attempt rem delay).1 ≤ rem := by
  intro rem
  induction rem with
  | zero => intro a d; simp [evalLoop]
  | succ r ih =>
    intro a d
    simp only [evalLoop]
    split_ifs with h1 h2
    · exact Nat.succ_le_succ (Nat.zero_le r)
    · exact Nat.succ_le_succ (Nat.zero_le r)
    · exact Nat.succ_le_succ (ih (a + 1) (d * 2))

/-- The loop makes at least one attempt when any remain. -/
theorem evalLoop_pos (resp : Nat → Option Nat) :
    ∀ (rem attempt delay : Nat), 0 < rem →
      1 ≤ (evalLoop resp attempt rem delay).1 := by
  intro rem a d h
  match rem, h with
  | r + 1, _ =>
    simp only [evalLoop]
    split_ifs <;> simp

/-- The delays slept are the base times successive powers of two, one
fewer than the attempts made. -/
theorem evalLoop_delays (resp : Nat → Option Nat) :
    ∀ (rem attempt delay : Nat),
      (evalLoop resp attempt rem delay).2 =
        (List.range ((evalLoop resp attempt rem delay).1 - 1)).map
          (fun i => delay * 2 ^ i) := by
  intro rem
  induction rem with
  | zero => intro a d; simp [evalLoop]
  | succ r ih =>
    intro a d
    by_cases h1 : resp a = some 200
    · simp [evalLoop, h1]
    · by_cases h2 : r = 0
      · simp [evalLoop, h1, h2]
      · simp only [evalLoop, if_neg h1, if_neg h2]
        have hpos : 1 ≤ (evalLoop resp (a + 1) r (d * 2)).1 :=
          evalLoop_pos resp r (a + 1) (d * 2) (Nat.pos_of_ne_zero h2)
        rw [ih (a + 1) (d * 2)]
        obtain ⟨m, hm⟩ : ∃ m, (evalLoop resp (a + 1) r (d * 2)).1 = m + 1 :=
          ⟨(evalLoop resp (a + 1) r (d * 2)).1 - 1,
            (Nat.succ_pred_eq_of_pos hpos).symm⟩
        rw [hm]
        simp only [Nat.add_sub_cancel, List.range_succ_eq_map, List.map_cons,
          List.map_map]
        refine List.cons_eq_cons.mpr ⟨by simp, ?_⟩
        apply List.map_congr_left
        intro i _
        simp only [Function.comp_apply, pow_succ]
        ring

/-- A first 200 answer at attempt `k` stops the loop after `k + 1` attempts. -/
theorem evalLoop_stop (resp : Nat → Option Nat) :
    ∀ (k rem attempt delay : Nat), k < rem → resp (attempt + k) = some 200 →
      (∀ j, j < k → resp (attempt + j) ≠ some 200) →
      (evalLoop resp attempt rem delay).1 = k + 1 := by
  intro k
  induction k with
  | zero =>
    intro rem a d hk h200 _
    match rem, hk with
    | r + 1, _ =>
      simp only [evalLoop]
      rw [if_pos (by simpa using h200)]
  | succ k ih =>
    intro rem a d hk h200 hj
    match rem, hk with
    | r + 1, hk =>
      have h0 : ¬ resp a = some 200 := by simpa using hj 0 (Nat.succ_pos k)
      have hrne : r ≠ 0 := by omega
      simp only [evalLoop, if_neg h0, if_neg hrne]
      have hrec := ih r (a + 1) (d * 2) (by omega)
        (by rw [show a + 1 + k = a + (k + 1) by omega]; exact h200)
        (fun j hjk => by
          rw [show a + 1 + j = a + (j + 1) by omega]
          exact hj (j + 1) (by omega))
      simp [hrec]

/-- The platform look-up finds the tag just stored for a file. -/
theorem getFileSHA_storeFile (repo : RepoFiles) (n c : String) :
    GetFileSHA (storeFile repo n c) n = some c := by
  simp [GetFileSHA, storeFile, List.find?]

/-- One loop step keeps `latestSHA` falsy when its issued request was
not accepted. -/
theorem pushFile_latest_empty (env : Env) (round : Nat) (st : PushState)
    (f : FileArtifact)
    (h : (∀ p ∈ st.trace, isAcceptedResp p.2 = false) → st.latestSHA = "")
    (hnone : ∀ p ∈ (pushFile env round st f).trace, isAcceptedResp p.2 = false) :
    (pushFile env round st f).latestSHA = "" := by
  by_cases hskip : falsyFile f = true
  · unfold pushFile at hnone ⊢
    rw [if_pos hskip] at hnone ⊢
    exact h hnone
  · by_cases hacc : isAcceptedResp (env.putResult st.trace.length) = true
    · exfalso
      have hmem : (putRequestFor st round f, env.putResult st.trace.length) ∈
          (pushFile env round st f).trace := by
        unfold pushFile
        rw [if_neg hskip, if_pos hacc]
        simp
      simpa [hacc] using hnone _ hmem
    · unfold pushFile at hnone ⊢
      rw [if_neg hskip, if_neg hacc] at hnone ⊢
      exact h (fun p hp => hnone p (by simp [hp]))

/-- If no request issued across the whole batch was accepted, the loop
ends with a falsy `latestSHA`. -/
theorem foldl_latest_empty (env : Env) (round : Nat) :
    ∀ (files : List FileArtifact) (st : PushState),
      ((∀ p ∈ st.trace, isAcceptedResp p.2 = false) → st.latestSHA = "") →
      (∀ p ∈ (files.foldl (pushFile env round) st).trace,
        isAcceptedResp p.2 = false) →
      (files.foldl (pushFile env round) st).latestSHA = "" := by
  intro files
  induction files with
  | nil => intro st h hf; exact h hf
  | cons f fs ih =>
    intro st h hf
    simp only [List.foldl_cons] at hf ⊢
    exact ih (pushFile env round st f)
      (fun hnone => pushFile_latest_empty env round st f h hnone) hf

/-- Zero accepted writes make `PushToRepo` raise. -/
theorem pushToRepo_error_of_no_accepted (env : Env) (round : Nat)
    (files : List FileArtifact)
    (h : ∀ p ∈ (PushToRepo env round files).1, isAcceptedResp p.2 = false) :
    (PushToRepo env round files).2 =
      Except.error "No files were pushed successfully." := by
  have hl : (pushRun env round files).latestSHA = "" :=
    foldl_latest_empty env round files _ (fun _ => rfl) h
  simp [PushToRepo, hl]

/-- Appending an accepted pair makes it the last accepted one. -/
theorem lastAccepted_append_accepted (tr : List (PutRequest × PutResponse))
    (x : PutRequest × PutResponse) (hx : isAcceptedResp x.2 = true) :
    lastAccepted (tr ++ [x]) = some x := by
  simp [lastAccepted, List.filter_append, hx]

/-- Appending a rejected pair leaves the last accepted one unchanged. -/
theorem lastAccepted_append_rejected (tr : List (PutRequest × PutResponse))
    (x : PutRequest × PutResponse) (hx : isAcceptedResp x.2 = false) :
    lastAccepted (tr ++ [x]) = lastAccepted tr := by
  simp [lastAccepted, List.filter_append, hx]

/-- One loop step preserves the `latestSHA` characterization on a
well-behaved platform. -/
theorem pushFile_latest_spec (env : Env) (round : Nat) (st : PushState)
    (f : FileArtifact) (H : WellBehavedPuts env)
    (hg : TraceGood st.trace) (hs : st.latestSHA = latestSpec st.trace) :
    TraceGood (pushFile env round st f).trace ∧
      (pushFile env round st f).latestSHA =
        latestSpec (pushFile env round st f).trace := by
  by_cases hskip : falsyFile f = true
  · unfold pushFile
    rw [if_pos hskip]
    exact ⟨hg, hs⟩
  · by_cases hacc : isAcceptedResp (env.putResult st.trace.length) = true
    · unfold pushFile
      rw [if_neg hskip, if_pos hacc]
      obtain ⟨c, hc, hcne⟩ := H st.trace.length hacc
      refine ⟨?_, ?_⟩
      · intro p hp hpa
        rcases List.mem_append.mp hp with hmem | hmem
        · exact hg p hmem hpa
        · rw [List.mem_singleton.mp hmem]
          exact ⟨c, hc, hcne⟩
      · show (env.putResult st.trace.length).commitSHA.getD st.latestSHA =
          latestSpec (st.trace ++
            [(putRequestFor st round f, env.putResult st.trace.length)])
        rw [hc]
        rw [latestSpec, lastAccepted_append_accepted st.trace
          (putRequestFor st round f, env.putResult st.trace.length) hacc]
        simp [hc]
    · unfold pushFile
      rw [if_neg hskip, if_neg hacc]
      refine ⟨?_, ?_⟩
      · intro p hp hpa
        rcases List.mem_append.mp hp with hmem | hmem
        · exact hg p hmem hpa
        · rw [List.mem_singleton.mp hmem] at hpa
          exact absurd hpa (by simp [hacc])
      · show st.latestSHA = latestSpec (st.trace ++
          [(putRequestFor st round f, env.putResult st.trace.length)])
        rw [latestSpec, lastAccepted_append_rejected _ _
          (Bool.eq_false_iff.mpr hacc)]
        exact hs

/-- The loop maintains the `latestSHA` characterization on a
well-behaved platform. -/
theorem foldl_latest_spec (env : Env) (round : Nat) (H : WellBehavedPuts env) :
    ∀ (files : List FileArtifact) (st : PushState),
      TraceGood st.trace → st.latestSHA = latestSpec st.trace →
      TraceGood ((files.foldl (pushFile env round) st)).trace ∧
        (files.foldl (pushFile env round) st).latestSHA =
          latestSpec ((files.foldl (pushFile env round) st)).trace := by
  intro files
  induction files with
  | nil => intro st hg hs; exact ⟨hg, hs⟩
  | cons f fs ih =>
    intro st hg hs
    simp only [List.foldl_cons]
    obtain ⟨hg1, hs1⟩ := pushFile_latest_spec env round st f H hg hs
    exact ih (pushFile env round st f) hg1 hs1

/-- Every event of `preEvents` is a creation, listing or generation call. -/
theorem mem_preEvents (env : Env) (req : Request) (e : Event)
    (he : e ∈ preEvents env req) :
    e = Event.createRepo (GetRepoName req.task req.nonce) ∨
    e = Event.listRoot (GetRepoName req.task req.nonce) ∨
    e = Event.llmCall (roundExistingFiles env req) := by
  simp only [preEvents, List.mem_append, List.mem_singleton] at he
  rcases he with (he | he) | he
  · split at he
    · exact Or.inl (List.mem_singleton.mp he)
    · exact absurd he (List.not_mem_nil e)
  · split at he
    · exact Or.inr (Or.inl (List.mem_singleton.mp he))
    · exact absurd he (List.not_mem_nil e)
  · exact Or.inr (Or.inr he)

/-- Every event of `pushEvents` is a put of an issued request. -/
theorem mem_pushEvents (env : Env) (req : Request) (e : Event)
    (he : e ∈ pushEvents env req) :
    ∃ p ∈ (PushToRepo env req.round (filesToCommit env req)).1,
      e = Event.put p.1 p.2 := by
  simp only [pushEvents, List.mem_map] at he
  obtain ⟨p, hp, hpe⟩ := he
  exact ⟨p, hp, hpe.symm⟩

/-- A kept entry of the context builder records a suffix-matching file
entry of the listing with its non-empty fetched content. -/
theorem existingFileEntry_some (env : Env) (item : RootItem)
    (pc : String × String) (h : existingFileEntry env item = some pc) :
    pc.1 = item.path ∧ pc.2 ≠ "" ∧ item.type = "file" ∧
      textSuffixMatch item.name = true ∧
      env.fileContent item.path = some pc.2 := by
  unfold existingFileEntry at h
  by_cases hcond : (item.type == "file" && textSuffixMatch item.name) = true
  · rw [if_pos hcond] at h
    obtain ⟨htype, hmatch⟩ := Bool.and_eq_true_iff.mp hcond
    rcases hfc : env.fileContent item.path with _ | c
    · rw [hfc] at h
      exact absurd h (by simp)
    · rw [hfc] at h
      dsimp only at h
      by_cases hcne : c ≠ ""
      · rw [if_pos hcne] at h
        have hpc : (item.path, c) = pc := Option.some.inj h
        subst hpc
        exact ⟨rfl, hcne, by simpa using htype, hmatch, rfl⟩
      · rw [if_neg hcne] at h
        exact absurd h (by simp)
  · rw [if_neg hcond] at h
    exact absurd h (by simp)

/-- A non-empty name and content make the file non-falsy. -/
theorem falsyFile_false (f : FileArtifact) (hn : f.name ≠ "")
    (hc : f.content ≠ "") : falsyFile f = false := by
  simp [falsyFile, hn, hc]

/-- One non-skipped loop step appends exactly its issued request. -/
theorem pushFile_trace (env : Env) (round : Nat) (st : PushState)
    (f : FileArtifact) (hskip : falsyFile f = false) :
    (pushFile env round st f).trace =
      st.trace ++ [(putRequestFor st round f, env.putResult st.trace.length)] := by
  unfold pushFile
  rw [if_neg (by simp [hskip])]
  by_cases hacc : isAcceptedResp (env.putResult st.trace.length) = true
  · rw [if_pos hacc]
  · rw [if_neg hacc]

/-- An accepted write records the new version tag on the platform. -/
theorem pushFile_repo_accepted (env : Env) (round : Nat) (st : PushState)
    (f : FileArtifact) (hskip : falsyFile f = false)
    (hacc : isAcceptedResp (env.putResult st.trace.length) = true) :
    (pushFile env round st f).repo =
      storeFile st.repo f.name (env.putResult st.trace.length).contentSHA := by
  unfold pushFile
  rw [if_neg (by simp [hskip]), if_pos hacc]

/-- Disjunction distributes over `List.any`. -/
theorem any_or_split (l : List FileArtifact) (p q : FileArtifact → Bool) :
    l.any (fun f => p f || q f) = (l.any p || l.any q) := by
  induction l with
  | nil => rfl
  | cons a l ih =>
    simp only [List.any_cons, ih]
    cases p a <;> cases q a <;> simp

/-- Trace of the run when round-1 creation raises. -/
theorem orchestrator_eq_create (env : Env) (req : Request)
    (h1 : (req.round = 1 && !CreateGithubRepoOk env) = true) :
    ProcessTaskInBackground env req =
      [Event.createRepo (GetRepoName req.task req.nonce)] := by
  unfold ProcessTaskInBackground
  rw [if_pos h1]

/-- Trace of the run when generation produces no files. -/
theorem orchestrator_eq_pre (env : Env) (req : Request)
    (h1 : ¬ (req.round = 1 && !CreateGithubRepoOk env) = true)
    (h2 : filesToCommit env req = []) :
    ProcessTaskInBackground env req = preEvents env req := by
  unfold ProcessTaskInBackground
  rw [if_neg h1, if_pos h2]

/-- Trace of the run when the synchronizer raises. -/
theorem orchestrator_eq_error (env : Env) (req : Request) (s : String)
    (h1 : ¬ (req.round = 1 && !CreateGithubRepoOk env) = true)
    (h2 : ¬ filesToCommit env req = [])
    (h3 : (PushToRepo env req.round (filesToCommit env req)).2 =
      Except.error s) :
    ProcessTaskInBackground env req =
      preEvents env req ++ pushEvents env req := by
  unfold ProcessTaskInBackground
  rw [if_neg h1, if_neg h2, h3]

/-- Trace of the run when the push succeeds but the pages call raises. -/
theorem orchestrator_eq_ok_pages (env : Env) (req : Request) (s : String)
    (h1 : ¬ (req.round = 1 && !CreateGithubRepoOk env) = true)
    (h2 : ¬ filesToCommit env req = [])
    (h3 : (PushToRepo env req.round (filesToCommit env req)).2 = Except.ok s)
    (h4 : EnablePagesOk env = false) :
    ProcessTaskInBackground env req =
      preEvents env req ++ pushEvents env req ++
        [Event.enablePages (GetRepoName req.task req.nonce)] := by
  unfold ProcessTaskInBackground
  rw [if_neg h1, if_neg h2, h3]
  simp [h4]

/-- Trace of a fully successful run. -/
theorem orchestrator_eq_ok_full (env : Env) (req : Request) (s : String)
    (h1 : ¬ (req.round = 1 && !CreateGithubRepoOk env) = true)
    (h2 : ¬ filesToCommit env req = [])
    (h3 : (PushToRepo env req.round (filesToCommit env req)).2 = Except.ok s)
    (h4 : EnablePagesOk env = true) :
    ProcessTaskInBackground env req =
      preEvents env req ++ pushEvents env req ++
        [Event.enablePages (GetRepoName req.task req.nonce)] ++
        (List.range (PostToEvaluationAPI env.evalResp).1).map Event.evalPost := by
  unfold ProcessTaskInBackground
  rw [if_neg h1, if_neg h2, h3]
  simp [h4]

/-- When the run survives provisioning, every pre-push call occurred. -/
theorem preEvents_sub_trace (env : Env) (req : Request)
    (h1 : ¬ (req.round = 1 && !CreateGithubRepoOk env) = true) :
    ∀ e ∈ preEvents env req, e ∈ ProcessTaskInBackground env req := by
  intro e he
  by_cases h2 : filesToCommit env req = []
  · rw [orchestrator_eq_pre env req h1 h2]
    exact he
  · rcases hres : (PushToRepo env req.round (filesToCommit env req)).2 with s | s
    · rw [orchestrator_eq_error env req s h1 h2 hres]
      exact List.mem_append_left _ he
    · by_cases h4 : EnablePagesOk env = true
      · rw [orchestrator_eq_ok_full env req s h1 h2 hres h4]
        exact List.mem_append_left _
          (List.mem_append_left _ (List.mem_append_left _ he))
      · rw [orchestrator_eq_ok_pages env req s h1 h2 hres
          (by simpa using h4)]
        exact List.mem_append_left _ (List.mem_append_left _ he)

/-- When generation produced files, every synchronizer call occurred. -/
theorem pushEvents_sub_trace (env : Env) (req : Request)
    (h1 : ¬ (req.round = 1 && !CreateGithubRepoOk env) = true)
    (h2 : ¬ filesToCommit env req = []) :
    ∀ e ∈ pushEvents env req, e ∈ ProcessTaskInBackground env req := by
  intro e he
  rcases hres : (PushToRepo env req.round (filesToCommit env req)).2 with s | s
  · rw [orchestrator_eq_error env req s h1 h2 hres]
    exact List.mem_append_right _ he
  · by_cases h4 : EnablePagesOk env = true
    · rw [orchestrator_eq_ok_full env req s h1 h2 hres h4]
      exact List.mem_append_left _
        (List.mem_append_left _ (List.mem_append_right _ he))
    · rw [orchestrator_eq_ok_pages env req s h1 h2 hres (by simpa using h4)]
      exact List.mem_append_left _ (List.mem_append_right _ he)

/-- Every event of a run is a pre-push call, a creation, a put, the
pages call or a notification attempt. -/
theorem mem_trace_shape (env : Env) (req : Request) (e : Event)
    (he : e ∈ ProcessTaskInBackground env req) :
    e ∈ preEvents env req
    ∨ e = Event.createRepo (GetRepoName req.task req.nonce)
    ∨ (∃ r p, e = Event.put r p)
    ∨ e = Event.enablePages (GetRepoName req.task req.nonce)
    ∨ (∃ k, e = Event.evalPost k) := by
  by_cases h1 : (req.round = 1 && !CreateGithubRepoOk env) = true
  · rw [orchestrator_eq_create env req h1] at he
    exact Or.inr (Or.inl (List.mem_singleton.mp he))
  · by_cases h2 : filesToCommit env req = []
    · rw [orchestrator_eq_pre env req h1 h2] at he
      exact Or.inl he
    · rcases hres : (PushToRepo env req.round (filesToCommit env req)).2
        with s | s
      · rw [orchestrator_eq_error env req s h1 h2 hres] at he
        rcases List.mem_append.mp he with h | h
        · exact Or.inl h
        · obtain ⟨p, _, hp⟩ := mem_pushEvents env req e h
          exact Or.inr (Or.inr (Or.inl ⟨p.1, p.2, hp⟩))
      · by_cases h4 : EnablePagesOk env = true
        · rw [orchestrator_eq_ok_full env req s h1 h2 hres h4] at he
          rcases List.mem_append.mp he with h | h
          · rcases List.mem_append.mp h with h | h
            · rcases List.mem_append.mp h with h | h
              · exact Or.inl h
              · obtain ⟨p, _, hp⟩ := mem_pushEvents env req e h
                exact Or.inr (Or.inr (Or.inl ⟨p.1, p.2, hp⟩))
            · exact Or.inr (Or.inr (Or.inr (Or.inl (List.mem_singleton.mp h))))
          · obtain ⟨k, _, hk⟩ := List.mem_map.mp h
            exact Or.inr (Or.inr (Or.inr (Or.inr ⟨k, hk.symm⟩)))
        · rw [orchestrator_eq_ok_pages env req s h1 h2 hres
            (by simpa using h4)] at he
          rcases List.mem_append.mp he with h | h
          · rcases List.mem_append.mp h with h | h
            · exact Or.inl h
            · obtain ⟨p, _, hp⟩ := mem_pushEvents env req e h
              exact Or.inr (Or.inr (Or.inl ⟨p.1, p.2, hp⟩))
          · exact Or.inr (Or.inr (Or.inr (Or.inl (List.mem_singleton.mp h))))

/-- Outside round 2 no listing call appears among the pre-push calls. -/
theorem listRoot_not_mem_preEvents (env : Env) (req : Request) (n : String)
    (hr2 : req.round ≠ 2) : Event.listRoot n ∉ preEvents env req := by
  intro h
  simp only [preEvents, List.mem_append, List.mem_singleton] at h
  rcases h with (h | h) | h
  · split at h
    · simp at h
    · simp at h
  · split at h
    · next hcond => exact hr2 hcond
    · simp at h
  · simp at h

/-- The generation call's context is always the round context. -/
theorem llmCall_mem_preEvents (env : Env) (req : Request)
    (ef : List (String × String)) (h : Event.llmCall ef ∈ preEvents env req) :
    ef = roundExistingFiles env req := by
  rcases mem_preEvents env req _ h with hc | hc | hc
  · simp at hc
  · simp at hc
  · simpa using hc

/-! ## Claims -/

/-- C5 (confirmed): the evaluation notifier makes at most `maxRetries`
POST attempts; its inter-attempt delays double from the fixed base 1
(1, 2, 4, ...), one fewer than the attempts made; and a first 200
answer at attempt `k` stops the loop after exactly `k + 1` attempts. -/
theorem c5_notifier_retry (resp : Nat → Option Nat) :
    (PostToEvaluationAPI resp).1 ≤ maxRetries
    ∧ (PostToEvaluationAPI resp).2 =
        (List.range ((PostToEvaluationAPI resp).1 - 1)).map (fun i => 2 ^ i)
    ∧ (∀ k, k < maxRetries → resp k = some 200 →
        (∀ j, j < k → resp j ≠ some 200) →
        (PostToEvaluationAPI resp).1 = k + 1) := by
  refine ⟨evalLoop_le resp maxRetries 0 1, ?_, ?_⟩
  · have h := evalLoop_delays resp maxRetries 0 1
    simpa [PostToEvaluationAPI] using h
  · intro k hk h200 hj
    have h := evalLoop_stop resp k maxRetries 0 1 hk (by simpa using h200)
      (fun j hjk => by simpa using hj j hjk)
    simpa [PostToEvaluationAPI] using h

/-- Witness: with a 500 then a 200 answer, the notifier stops after the
second attempt. -/
theorem c5_witness : (PostToEvaluationAPI respW).1 = 2 :=
  (c5_notifier_retry respW).2.2 1 (by decide) (by decide) (by decide)

/-- C8 (confirmed): an attachment whose data URI fails to decode to
UTF-8 text is skipped — the generation context's attachment entries are
exactly those of the remaining attachments, so processing continues
past it rather than aborting. -/
theorem c8_attachment_skip (b64utf8 : String → Option String)
    (pre post : List Attachment) (a : Attachment)
    (h : decodeAttachment b64utf8 a = none) :
    attachmentSection b64utf8 (pre ++ a :: post) =
      attachmentSection b64utf8 (pre ++ post) := by
  unfold attachmentSection
  rw [List.filterMap_append, List.filterMap_append, List.filterMap_cons]
  simp [h]

/-- Witness: a markerless data URI between two good attachments
contributes nothing, and the good ones are still processed. -/
theorem c8_witness :
    attachmentSection oracleId [attGood1, attBad, attGood2] =
      attachmentSection oracleId [attGood1, attGood2] :=
  c8_attachment_skip oracleId [attGood1] [attGood2] attBad (by decide)

/-- C9 (confirmed): a file artifact with an empty name or empty content
is silently skipped by the synchronizer — removing it from the batch
changes nothing at all — and a batch of only such files issues no
request and raises as if zero files were pushed. -/
theorem c9_empty_skip :
    (∀ (env : Env) (round : Nat) (pre : List FileArtifact) (f : FileArtifact)
        (post : List FileArtifact), f.name = "" ∨ f.content = "" →
        PushToRepo env round (pre ++ f :: post) =
          PushToRepo env round (pre ++ post))
    ∧ (∀ (env : Env) (round : Nat) (files : List FileArtifact),
        (∀ f ∈ files, f.name = "" ∨ f.content = "") →
        PushToRepo env round files =
          ([], Except.error "No files were pushed successfully.")) := by
  constructor
  · intro env round pre f post h
    unfold PushToRepo pushRun
    simp only [List.foldl_append, List.foldl_cons]
    rw [pushFile_skip env round _ f h]
  · intro env round files h
    unfold PushToRepo pushRun
    rw [foldl_skip_all env round files _ h]
    simp

/-- Witness: dropping an empty-named artifact changes nothing, and a
batch of two degenerate artifacts fails as zero pushed. -/
theorem c9_witness :
    PushToRepo envReject 1 ([fileA] ++ FileArtifact.mk "" "Qg==" :: []) =
      PushToRepo envReject 1 ([fileA] ++ []) ∧
    PushToRepo envReject 1 [⟨"", "Qg=="⟩, ⟨"a.html", ""⟩] =
      ([], Except.error "No files were pushed successfully.") :=
  ⟨c9_empty_skip.1 envReject 1 [fileA] ⟨"", "Qg=="⟩ [] (Or.inl rfl),
   c9_empty_skip.2 envReject 1 [⟨"", "Qg=="⟩, ⟨"a.html", ""⟩] (by decide)⟩

/-- C10 (confirmed): the context builder's filter is a bare suffix match
against html, css, js, md, json — any root `file` entry whose name
merely ends in one of those letter sequences (no dot required, e.g.
`nojs` or `xhtml`) is fetched and, when its decoded content is
non-empty, included; entries whose decoded content is the empty string
are omitted; and only suffix-matching file entries ever appear. -/
theorem c10_suffix_filter :
    (∀ (env : Env) (item : RootItem) (c : String),
        env.rootStatus = 200 → item ∈ env.rootListing → item.type = "file" →
        textSuffixMatch item.name = true → env.fileContent item.path = some c →
        c ≠ "" → (item.path, c) ∈ GetExistingFiles env)
    ∧ (∀ (env : Env) (p : String), (p, "") ∉ GetExistingFiles env)
    ∧ textSuffixMatch "nojs" = true ∧ textSuffixMatch "xhtml" = true
    ∧ (∀ (env : Env) (pc : String × String), pc ∈ GetExistingFiles env →
        ∃ item ∈ env.rootListing, item.path = pc.1 ∧ item.type = "file" ∧
          textSuffixMatch item.name = true) := by
  refine ⟨?_, ?_, by decide, by decide, ?_⟩
  · intro env item c hstat hmem htype hmatch hcontent hne
    unfold GetExistingFiles
    rw [if_pos hstat]
    refine List.mem_filterMap.mpr ⟨item, hmem, ?_⟩
    simp [existingFileEntry, htype, hmatch, hcontent, hne]
  · intro env p hp
    unfold GetExistingFiles at hp
    by_cases hstat : env.rootStatus = 200
    · rw [if_pos hstat] at hp
      obtain ⟨item, _, heq⟩ := List.mem_filterMap.mp hp
      have := (existingFileEntry_some env item (p, "") heq).2.1
      exact this rfl
    · rw [if_neg hstat] at hp
      exact absurd hp (List.not_mem_nil _)
  · intro env pc hp
    unfold GetExistingFiles at hp
    by_cases hstat : env.rootStatus = 200
    · rw [if_pos hstat] at hp
      obtain ⟨item, hmem, heq⟩ := List.mem_filterMap.mp hp
      obtain ⟨hpath, _, htype, hmatch, _⟩ :=
        existingFileEntry_some env item pc heq
      exact ⟨item, hmem, hpath.symm, htype, hmatch⟩
    · rw [if_neg hstat] at hp
      exact absurd hp (List.not_mem_nil _)

/-- Witness: the extensionless root file `nojs` is included with its
non-empty content. -/
theorem c10_witness : ("nojs", "console") ∈ GetExistingFiles envListing :=
  c10_suffix_filter.1 envListing ⟨"file", "nojs", "nojs"⟩ "console" rfl
    (by decide) rfl (by decide) (by decide) (by decide)

/-- C1 (corrected): for round 1, whenever the service's answer parses as
an array the returned set contains `LICENSE` or `README.md`, and when
the kept entries contain neither, both defaults are synthesized and
present.  On a raised parse the fallback path returns before the
round-1 block (see the counterexample), and a supplied `LICENSE` alone
suppresses the `README.md` default (and conversely). -/
theorem c1_round1_defaults (req : Request) (ef : List (String × String))
    (items : List GenItem) (hr : req.round = 1) :
    ((LLMCode req ef (GenAnswer.array items)).any
        (fun f => f.name == "LICENSE" || f.name == "README.md") = true)
    ∧ ((encodeFiles items).any
          (fun f => f.name == "LICENSE" || f.name == "README.md") = false →
        (LLMCode req ef (GenAnswer.array items)).any
            (fun f => f.name == "LICENSE") = true
        ∧ (LLMCode req ef (GenAnswer.array items)).any
            (fun f => f.name == "README.md") = true) := by
  have hLLM : LLMCode req ef (GenAnswer.array items) =
      roundOneDefaults req (encodeFiles items) := rfl
  by_cases hE : (encodeFiles items).any
      (fun f => f.name == "LICENSE" || f.name == "README.md") = true
  · have hres : roundOneDefaults req (encodeFiles items) = encodeFiles items := by
      unfold roundOneDefaults
      rw [if_neg (by simp [hE])]
    constructor
    · rw [hLLM, hres]
      exact hE
    · intro hfalse
      exact absurd hE (by simp [hfalse])
  · have hEf : (encodeFiles items).any
        (fun f => f.name == "LICENSE" || f.name == "README.md") = false :=
      Bool.eq_false_iff.mpr hE
    have hsplit := any_or_split (encodeFiles items)
      (fun f => f.name == "LICENSE") (fun f => f.name == "README.md")
    rw [hEf] at hsplit
    have hLic : (encodeFiles items).any (fun f => f.name == "LICENSE") = false := by
      cases hl : (encodeFiles items).any (fun f => f.name == "LICENSE") <;>
        simp [hl] at hsplit ⊢
    have hRead : (encodeFiles items).any
        (fun f => f.name == "README.md") = false := by
      cases hl : (encodeFiles items).any (fun f => f.name == "README.md") <;>
        simp [hl] at hsplit ⊢
    have hwl : ((encodeFiles items ++ [defaultLicense]).any
        (fun f => f.name == "README.md")) = false := by
      rw [List.any_append, hRead]
      decide
    have hres : roundOneDefaults req (encodeFiles items) =
        encodeFiles items ++ [defaultLicense] ++ [defaultReadme req] := by
      unfold roundOneDefaults
      rw [hEf, hLic]
      simp [hr, hwl]
    rw [hLLM, hres]
    refine ⟨?_, fun _ => ⟨?_, ?_⟩⟩ <;>
      simp [List.any_append, defaultLicense, defaultReadme]

/-- Counterexample to C1 as stated: at round 1 a raised parse yields
only the fallback artifact (no license), and an answer supplying only
`LICENSE` gets no synthesized `README.md`. -/
theorem c1_counterexample :
    (reqRound 1).round = 1
    ∧ (LLMCode (reqRound 1) [] GenAnswer.failure).any
        (fun f => f.name == "LICENSE") = false
    ∧ (LLMCode (reqRound 1) []
          (GenAnswer.array [⟨some "LICENSE", some "x"⟩])).any
        (fun f => f.name == "README.md") = false := by
  refine ⟨rfl, by decide, by decide⟩

/-- Witness: at round 1 an empty parsed array gets both defaults. -/
theorem c1_witness :
    (LLMCode (reqRound 1) [] (GenAnswer.array [])).any
        (fun f => f.name == "LICENSE") = true
    ∧ (LLMCode (reqRound 1) [] (GenAnswer.array [])).any
        (fun f => f.name == "README.md") = true :=
  (c1_round1_defaults (reqRound 1) [] [] rfl).2 (by decide)

/-- C2 (corrected): only a raised generation call or parse produces the
single fallback artifact, and the pipeline pushes it; an answer parsing
to a non-array value yields no fallback — outside round 1 the file list
is empty and the round aborts before any push. -/
theorem c2_fallback :
    (∀ (req : Request) (ef : List (String × String)),
        LLMCode req ef GenAnswer.failure = [fallbackArtifact])
    ∧ (∀ (req : Request) (ef : List (String × String)), req.round ≠ 1 →
        LLMCode req ef GenAnswer.nonArray = [])
    ∧ (∀ (env : Env) (req : Request), req.round ≠ 1 →
        env.llmAnswer = GenAnswer.failure →
        ∃ r p, Event.put r p ∈ ProcessTaskInBackground env req ∧
          r.fileName = "error.html")
    ∧ (∀ (env : Env) (req : Request), req.round ≠ 1 →
        env.llmAnswer = GenAnswer.nonArray →
        ∀ r p, Event.put r p ∉ ProcessTaskInBackground env req) := by
  refine ⟨fun req ef => rfl, ?_, ?_, ?_⟩
  · intro req ef hr1
    show roundOneDefaults req [] = []
    unfold roundOneDefaults
    rw [if_neg (by simp [hr1])]
  · intro env req hr1 hllm
    have h1 : ¬ (req.round = 1 && !CreateGithubRepoOk env) = true := by
      simp [hr1]
    have hfc : filesToCommit env req = [fallbackArtifact] := by
      unfold filesToCommit
      rw [hllm]
      exact rfl
    have h2 : ¬ filesToCommit env req = [] := by simp [hfc]
    have htrace : (PushToRepo env req.round (filesToCommit env req)).1 =
        [(putRequestFor { repo := env.repo0, trace := [], latestSHA := "" }
            req.round fallbackArtifact, env.putResult 0)] := by
      rw [hfc]
      show (pushRun env req.round [fallbackArtifact]).trace = _
      unfold pushRun
      simp only [List.foldl_cons, List.foldl_nil]
      rw [pushFile_trace env req.round _ fallbackArtifact (by decide)]
      simp
    refine ⟨putRequestFor { repo := env.repo0, trace := [], latestSHA := "" }
      req.round fallbackArtifact, env.putResult 0, ?_, rfl⟩
    refine pushEvents_sub_trace env req h1 h2 _ ?_
    rw [pushEvents, htrace]
    simp
  · intro env req hr1 hllm r p hmem
    have h1 : ¬ (req.round = 1 && !CreateGithubRepoOk env) = true := by
      simp [hr1]
    have h2 : filesToCommit env req = [] := by
      unfold filesToCommit
      rw [hllm]
      show roundOneDefaults req [] = []
      unfold roundOneDefaults
      rw [if_neg (by simp [hr1])]
    rw [orchestrator_eq_pre env req h1 h2] at hmem
    rcases mem_preEvents env req _ hmem with hc | hc | hc <;> simp at hc

/-- Counterexample to C2 as stated: a non-array JSON answer at round 2
yields zero artifacts, not one, and the round aborts with no push, no
pages call and no notification. -/
theorem c2_counterexample :
    (reqRound 2).round = 2
    ∧ LLMCode (reqRound 2) [] GenAnswer.nonArray = []
    ∧ ProcessTaskInBackground envNonArray (reqRound 2) =
        [Event.listRoot "markdown-to-html_ab12", Event.llmCall []] := by
  refine ⟨rfl, rfl, by decide⟩

/-- Witness: a raised parse at round 2 still pushes the fallback page. -/
theorem c2_witness :
    ∃ r p, Event.put r p ∈ ProcessTaskInBackground envReject (reqRound 2) ∧
      r.fileName = "error.html" :=
  c2_fallback.2.2.1 envReject (reqRound 2) (by decide) rfl

/-- C3 (corrected): the orchestrator invokes the round context builder
exactly when round == 2; for round 1 and for every round above 2 the
builder is not invoked and the context passed to generation is empty. -/
theorem c3_context_round2_only :
    (∀ (env : Env) (req : Request), req.round = 2 →
        Event.listRoot (GetRepoName req.task req.nonce) ∈
          ProcessTaskInBackground env req)
    ∧ (∀ (env : Env) (req : Request), req.round ≠ 2 →
        (∀ n, Event.listRoot n ∉ ProcessTaskInBackground env req)
        ∧ ∀ ef, Event.llmCall ef ∈ ProcessTaskInBackground env req →
            ef = []) := by
  constructor
  · intro env req hr
    have h1 : ¬ (req.round = 1 && !CreateGithubRepoOk env) = true := by
      simp [hr]
    refine preEvents_sub_trace env req h1 _ ?_
    simp [preEvents, hr]
  · intro env req hr2
    constructor
    · intro n hn
      rcases mem_trace_shape env req _ hn with h | h | h | h | h
      · exact listRoot_not_mem_preEvents env req n hr2 h
      · simp at h
      · obtain ⟨r, p, hp⟩ := h
        simp at hp
      · simp at h
      · obtain ⟨k, hk⟩ := h
        simp at hk
    · intro ef hef
      rcases mem_trace_shape env req _ hef with h | h | h | h | h
      · rw [llmCall_mem_preEvents env req ef h]
        simp [roundExistingFiles, hr2]
      · simp at h
      · obtain ⟨r, p, hp⟩ := h
        simp at hp
      · simp at h
      · obtain ⟨k, hk⟩ := h
        simp at hk

/-- Counterexample to C3 as stated: at round 3 (> 1) the context builder
is never invoked — the whole trace is one generation call with an empty
context. -/
theorem c3_counterexample :
    (reqRound 3).round > 1
    ∧ ProcessTaskInBackground envNonArray (reqRound 3) =
        [Event.llmCall []] := by
  refine ⟨by decide, by decide⟩

/-- Witness: at round 2 the listing call does occur. -/
theorem c3_witness :
    Event.listRoot (GetRepoName (reqRound 2).task (reqRound 2).nonce) ∈
      ProcessTaskInBackground envNonArray (reqRound 2) :=
  c3_context_round2_only.1 envNonArray (reqRound 2) rfl

/-- C4 (confirmed): in a run where the synchronizer accepts zero file
writes, neither the publish-enable call nor any evaluation-notification
attempt occurs. -/
theorem c4_no_publish_no_notify (env : Env) (req : Request)
    (h : ∀ e ∈ ProcessTaskInBackground env req, acceptedPutEvent e = false) :
    (∀ n, Event.enablePages n ∉ ProcessTaskInBackground env req)
    ∧ (∀ k, Event.evalPost k ∉ ProcessTaskInBackground env req) := by
  by_cases h1 : (req.round = 1 && !CreateGithubRepoOk env) = true
  · rw [orchestrator_eq_create env req h1]
    refine ⟨fun n hn => by simp at hn, fun k hk => by simp at hk⟩
  · by_cases h2 : filesToCommit env req = []
    · rw [orchestrator_eq_pre env req h1 h2]
      constructor
      · intro n hn
        rcases mem_preEvents env req _ hn with hc | hc | hc <;> simp at hc
      · intro k hk
        rcases mem_preEvents env req _ hk with hc | hc | hc <;> simp at hc
    · have hnoacc : ∀ p ∈ (PushToRepo env req.round (filesToCommit env req)).1,
          isAcceptedResp p.2 = false := by
        intro p hp
        have hpe : Event.put p.1 p.2 ∈ pushEvents env req := by
          rw [pushEvents]
          exact List.mem_map_of_mem _ hp
        have hmem := pushEvents_sub_trace env req h1 h2 _ hpe
        simpa [acceptedPutEvent] using h _ hmem
      have herr := pushToRepo_error_of_no_accepted env req.round
        (filesToCommit env req) hnoacc
      rw [orchestrator_eq_error env req _ h1 h2 herr]
      constructor
      · intro n hn
        rcases List.mem_append.mp hn with hpre | hpush
        · rcases mem_preEvents env req _ hpre with hc | hc | hc <;> simp at hc
        · obtain ⟨p, _, hc⟩ := mem_pushEvents env req _ hpush
          simp at hc
      · intro k hk
        rcases List.mem_append.mp hk with hpre | hpush
        · rcases mem_preEvents env req _ hpre with hc | hc | hc <;> simp at hc
        · obtain ⟨p, _, hc⟩ := mem_pushEvents env req _ hpush
          simp at hc

/-- Witness: with a platform rejecting every write, a round-2 run makes
no pages call and no notification attempt. -/
theorem c4_witness :
    (∀ n, Event.enablePages n ∉
        ProcessTaskInBackground envReject (reqRound 2))
    ∧ (∀ k, Event.evalPost k ∉
        ProcessTaskInBackground envReject (reqRound 2)) :=
  c4_no_publish_no_notify envReject (reqRound 2) (by decide)

/-- C6 (confirmed): the synchronizer issues a create request carrying no
version tag when the stored tag is absent, an update request carrying
the current tag when present, and pushing the same filename twice (a
fresh file, first write accepted) issues a create and then an update
carrying the tag the platform stored, not a second create. -/
theorem c6_create_or_update (env : Env) (round : Nat) (f g : FileArtifact)
    (hfn : f.name ≠ "") (hfc : f.content ≠ "") :
    (GetFileSHA env.repo0 f.name = none →
      (PushToRepo env round [f]).1.map (fun p => p.1.sha) = [none])
    ∧ (∀ s, s ≠ "" → GetFileSHA env.repo0 f.name = some s →
      (PushToRepo env round [f]).1.map (fun p => p.1.sha) = [some s])
    ∧ (g.name = f.name → g.content ≠ "" →
       GetFileSHA env.repo0 f.name = none →
       isAcceptedResp (env.putResult 0) = true →
       (env.putResult 0).contentSHA ≠ "" →
       (PushToRepo env round [f, g]).1.map (fun p => p.1.sha) =
         [none, some (env.putResult 0).contentSHA]) := by
  have hskf : falsyFile f = false := falsyFile_false f hfn hfc
  refine ⟨?_, ?_, ?_⟩
  · intro hsha
    show ((pushRun env round [f]).trace.map (fun p => p.1.sha)) = [none]
    unfold pushRun
    simp only [List.foldl_cons, List.foldl_nil]
    rw [pushFile_trace env round _ f hskf]
    simp [putRequestFor, hsha, shaTruthy]
  · intro s hs hsha
    show ((pushRun env round [f]).trace.map (fun p => p.1.sha)) = [some s]
    unfold pushRun
    simp only [List.foldl_cons, List.foldl_nil]
    rw [pushFile_trace env round _ f hskf]
    simp [putRequestFor, hsha, shaTruthy, hs]
  · intro hname hgc hsha hacc hcs
    have hskg : falsyFile g = false := falsyFile_false g (hname ▸ hfn) hgc
    show ((pushRun env round [f, g]).trace.map (fun p => p.1.sha)) =
      [none, some (env.putResult 0).contentSHA]
    unfold pushRun
    simp only [List.foldl_cons, List.foldl_nil]
    have hrepo1 : (pushFile env round
        { repo := env.repo0, trace := [], latestSHA := "" } f).repo =
        storeFile env.repo0 f.name (env.putResult 0).contentSHA :=
      pushFile_repo_accepted env round _ f hskf hacc
    have htrace1 : (pushFile env round
        { repo := env.repo0, trace := [], latestSHA := "" } f).trace =
        [(putRequestFor { repo := env.repo0, trace := [], latestSHA := "" }
            round f, env.putResult 0)] := by
      rw [pushFile_trace env round _ f hskf]
      simp
    rw [pushFile_trace env round _ g hskg, htrace1]
    have hq0 : (putRequestFor
        { repo := env.repo0, trace := [], latestSHA := "" } round f).sha =
        none := by
      simp [putRequestFor, hsha, shaTruthy]
    have hq1 : (putRequestFor (pushFile env round
        { repo := env.repo0, trace := [], latestSHA := "" } f) round g).sha =
        some (env.putResult 0).contentSHA := by
      unfold putRequestFor
      rw [hname, hrepo1, getFileSHA_storeFile]
      simp [shaTruthy, hcs]
    simp [hq0, hq1]

/-- Witness: a fresh file pushed twice gets a tagless create and then a
tagged update. -/
theorem c6_witness :
    (PushToRepo envAccept 1 [fileA, fileB]).1.map (fun p => p.1.sha) =
      [none, some "blobA"] :=
  (c6_create_or_update envAccept 1 fileA fileB (by decide) (by decide)).2.2
    (by decide) (by decide) (by decide) (by decide) (by decide)

/-- C7 (confirmed): on a platform whose accepted writes carry non-empty
commit identifiers, `PushToRepo` returns the commit identifier of the
last accepted write in iteration order, and raises when no write across
the batch was accepted. -/
theorem c7_last_accepted_commit (env : Env) (round : Nat)
    (files : List FileArtifact) (H : WellBehavedPuts env) :
    (∀ p, lastAccepted (PushToRepo env round files).1 = some p →
        (PushToRepo env round files).2 =
          Except.ok (p.2.commitSHA.getD ""))
    ∧ (lastAccepted (PushToRepo env round files).1 = none →
        (PushToRepo env round files).2 =
          Except.error "No files were pushed successfully.") := by
  obtain ⟨hg, hs⟩ := foldl_latest_spec env round H files
    { repo := env.repo0, trace := [], latestSHA := "" }
    (fun p hp _ => absurd hp (List.not_mem_nil p)) rfl
  rw [show List.foldl (pushFile env round)
      { repo := env.repo0, trace := [], latestSHA := "" } files =
      pushRun env round files from rfl] at hg hs
  have htr : (PushToRepo env round files).1 = (pushRun env round files).trace :=
    rfl
  constructor
  · intro p hp
    rw [htr] at hp
    have hpf : p ∈ (pushRun env round files).trace.filter
        (fun q => isAcceptedResp q.2) :=
      List.mem_of_getLast?_eq_some hp
    obtain ⟨hptr, hpacc⟩ := List.mem_filter.mp hpf
    obtain ⟨c, hc, hcne⟩ := hg p hptr hpacc
    have hval : (pushRun env round files).latestSHA = c := by
      rw [hs]
      unfold latestSpec
      rw [hp]
      show p.2.commitSHA.getD "" = c
      rw [hc]
      rfl
    show (if (pushRun env round files).latestSHA = "" then _ else
      Except.ok (pushRun env round files).latestSHA) = _
    rw [hval, if_neg hcne, hc]
    simp
  · intro hp
    rw [htr] at hp
    have hval : (pushRun env round files).latestSHA = "" := by
      rw [hs]
      unfold latestSpec
      rw [hp]
    show (if (pushRun env round files).latestSHA = "" then
      Except.error "No files were pushed successfully." else _) = _
    rw [hval, if_pos rfl]

/-- Witness: one accepted write returns its commit identifier. -/
theorem c7_witness :
    (PushToRepo envAccept 1 [fileA]).2 = Except.ok "commitA" := by
  have h := (c7_last_accepted_commit envAccept 1 [fileA]
      (fun n _ => ⟨"commitA", rfl, by decide⟩)).1
    (⟨"index.html", "Round 1-Create index.html", "PGgxPg==", none⟩,
      ⟨201, some "commitA", "blobA"⟩) (by decide)
  exact h

end AppBuilder
